import Mathlib

/-!
Verification development for the IMUNES helper interpreter
(`scripts/imunes/imunes_helper.py`).

The Python source is shallowly embedded: Python strings are Lean `String`s
(with an explicit object-identity wrapper `PyStr` where the source compares
strings with `is`), Python exceptions become an explicit `PyError` sum
returned through `Except`, and the external subprocess interface is out of
scope — the embedding records which external invocations would be submitted
instead of running them.  Line references in doc comments point into
`imunes_helper.py`.
-/

/-- A CPython string object: a value together with an object identity.
`is` compares `oid`, `==` compares `val`.  Runtime-parsed multi-character
strings are fresh objects (CPython does not intern them), so they carry an
`oid` different from that of any stored string of the same value. -/
structure PyStr where
  oid : Nat
  val : String
deriving DecidableEq, Repr

/-- Python `is` on string objects: object-identity comparison. -/
def pyIs (a b : PyStr) : Bool := a.oid == b.oid

/-- Values stored in the shared execution context dictionary. Only the shape
matters to the embedded code paths (the context validator inspects keys only). -/
inductive PyValue where
  | int (n : Int)
  | str (s : String)
  | strList (l : List String)
  | bool (b : Bool)
  | varMap (m : List (String × String))
  | dict
  | env
  | noneVal
deriving DecidableEq, Repr

/-- The Python exceptions raised by the embedded code paths. -/
inductive PyError where
  | valueError (msg : String)
  | commandException (msg : String)
  | nodeExecException (msg : String)
  | exitException
  | nameError (msg : String)
  | attributeError (msg : String)
  | typeError (msg : String)
  | indexError (msg : String)
deriving DecidableEq, Repr

deriving instance DecidableEq for Except

/-- What the read-eval loop (lines 907-917) does with an exception escaping a
command: `ExitException` ends the loop cleanly, `CommandException` is printed
and the loop continues, and every other exception is fatal (`working = False`
after a traceback).  Note `NodeExecException` is NOT a `CommandException`,
so it also lands in the fatal branch. -/
inductive LoopAction where
  | keepGoing
  | exitLoop
  | fatalExit
deriving DecidableEq, Repr

def classifyError : PyError → LoopAction
  | .exitException => .exitLoop
  | .commandException _ => .keepGoing
  | _ => .fatalExit

namespace SimulatorState

/-- `SimulatorState.idle = 1` (line 557). -/
def idle : Nat := 1

/-- `SimulatorState.started = 2` (line 558). -/
def started : Nat := 2

/-- `SimulatorState.stopped = 3` (line 559). -/
def stopped : Nat := 3

end SimulatorState

/-- Strip leading and trailing whitespace from a character list (what Python
`int(...)` does to its string argument before parsing). -/
def pyStripWs (cs : List Char) : List Char :=
  ((cs.dropWhile Char.isWhitespace).reverse.dropWhile Char.isWhitespace).reverse

/-- Python 2 `int(value)` on a string: strips surrounding whitespace, accepts
an optional sign followed by a nonempty run of decimal digits; anything else
raises `ValueError` (modelled as `none`). -/
def pyInt? (s : String) : Option Int :=
  let cs := pyStripWs s.data
  match cs with
  | [] => none
  | c :: rest =>
    let signed : Int × List Char :=
      if c = '-' then (-1, rest)
      else if c = '+' then (1, rest)
      else (1, cs)
    if signed.2 ≠ [] ∧ signed.2.all Char.isDigit then
      some (signed.1 * (signed.2.foldl (fun a d => a * 10 + (d.toNat - 48)) 0 : Nat))
    else none

/-- The context-entry validators that occur in the commands modelled here
(lines 49-198).  `stringEntry` is `StringContextEntry()` without a regex,
`integerEntry` is `IntegerContextEntry(constrained)`, `arrayOfStringEntry`
is `ArrayContextEntry(StringContextEntry)` and `autoEntry` is
`AutoContextEntry(sample)`. -/
inductive EntryValidator where
  | stringEntry
  | integerEntry (constrained : Option Int)
  | arrayOfStringEntry
  | autoEntry (sample : PyValue)
deriving DecidableEq, Repr

/-- `IntegerContextEntry.validate` (lines 91-102).  The constructor (line 88)
assigns the RAW pattern string `"^[\-][1-9]+[0-9]*|[0-9]+$"` to `self._regex`
without `re.compile`, so when the chain of `super().validate` calls reaches
`ContextEntryType.validate` (line 59), the truthy string has no `.match`
attribute and an `AttributeError` is raised.  Hence: `ValueError` when
`int(value)` fails, `ValueError` when an exact-match constraint is violated,
and otherwise `AttributeError` — the method never returns normally. -/
def integerContextEntry_validate (constrained : Option Int) (key : String)
    (value : String) : Except PyError Unit :=
  match pyInt? value with
  | none => .error (.valueError ("Integer expected for " ++ key))
  | some converted =>
    match constrained with
    | some k =>
      if converted ≠ k then
        .error (.valueError ("Expected value for " ++ key))
      else
        .error (.attributeError "str object has no attribute match")
    | none => .error (.attributeError "str object has no attribute match")

/-- Validation of one positional command parameter (always a string token).
Dispatches to the entry type's `validate` as `ParamValidator.validate`
would (line 268). -/
def entryValidate (v : EntryValidator) (key : String) (value : String) :
    Except PyError Unit :=
  match v with
  | .stringEntry => .ok ()
  | .integerEntry c => integerContextEntry_validate c key value
  | .arrayOfStringEntry => .error (.valueError "Value must be an array")
  | .autoEntry sample =>
    match sample with
    | .str _ => .ok ()
    | _ => .error (.valueError "Invalid value of type str")

/-- `ContextValidator.validate` (lines 207-219).  The loop deletes every
required KEY that is present in the context and fails only when a required
key is missing; the `EntryValidator` attached to each required entry is
never invoked, so the VALUE stored under the key — in particular the
lifecycle state — is never checked. -/
def contextValidator_validate (required : List (String × EntryValidator))
    (ctx : List (String × PyValue)) : Except PyError Unit :=
  if ctx.isEmpty then .error (.valueError "Execution context was not provided")
  else
    let remaining := required.filter (fun kv => ¬ (ctx.map Prod.fst).contains kv.fst)
    if remaining.isEmpty then .ok ()
    else .error (.valueError "Missing context entries")

/-- `ParamConstraints` (lines 241-244). -/
structure ParamConstraints where
  min_len : Nat
  constraints : List (Nat × EntryValidator)
deriving DecidableEq, Repr

/-- The per-position loop of `ParamValidator.validate` (lines 264-270): a key
at or past the end of `cmd` raises `CommandException`, and any exception from
an entry validator is re-raised as `CommandException(e.message)`. -/
def paramChecks : List (Nat × EntryValidator) → List String → Except PyError Unit
  | [], _ => .ok ()
  | (i, v) :: rest, tokens =>
    if h : i < tokens.length then
      match entryValidate v (toString i) (tokens.get ⟨i, h⟩) with
      | .ok _ => paramChecks rest tokens
      | .error e =>
        .error (.commandException (match e with
          | .valueError m => m
          | .attributeError m => m
          | _ => "error"))
    else .error (.commandException "Invalid command param constraints")

/-- `ParamValidator.validate` (lines 253-270).  `cmd` is `context['cmd']`,
which is `None` when the command line had no parameters; `len(None)` then
raises `TypeError`. -/
def paramValidator_validate (c : Option ParamConstraints)
    (cmd : Option (List String)) : Except PyError Unit :=
  match c with
  | none => .ok ()
  | some pc =>
    match cmd with
    | none => .error (.typeError "object of type NoneType has no len")
    | some tokens =>
      if tokens.length < pc.min_len then
        .error (.commandException "Insufficient parameters")
      else paramChecks pc.constraints tokens

/-- Python `str.split(',')`: split a character list at every comma; never
returns an empty list (splitting the empty string yields `[""]`). -/
def splitCommaAux : List Char → List (List Char)
  | [] => [[]]
  | c :: rest =>
    if c = ',' then [] :: splitCommaAux rest
    else
      match splitCommaAux rest with
      | g :: gs => (c :: g) :: gs
      | [] => [[c]]

/-- `NodeNameValidatorMixin._extract_nodes` (lines 295-300): `*` matches
everything; a leading `~` negates a comma-separated prefix list; otherwise a
comma-separated prefix list.  The `None` components of the Python tuple are
`Option` here. -/
def extract_nodes (node_str : String) : Bool × Option Bool × Option (List String) :=
  if node_str = "*" then (true, none, none)
  else
    match node_str.data with
    | '~' :: rest => (false, some true, some ((splitCommaAux rest).map String.mk))
    | _ => (false, some false, some ((splitCommaAux node_str.data).map String.mk))

/-- `NodeNameValidatorMixin._valid_node` (lines 302-314): `node` matches when
some entry of `nodes` is a (case-sensitive) prefix of it; `negated` flips the
result. -/
def valid_node (node : String) (nodes : List String) (negated : Bool) : Bool :=
  let result := nodes.any (fun pre => pre.data.isPrefixOf node.data)
  if negated then !result else result

/-- The node subset targeted by a node-dispatch command: the filter of the
comprehension at lines 371-374 (`_any or self._valid_node(name, _nodes, _neg)`).
When `_any` is set the `Option` components are `None` and never consulted. -/
def selectNodes (node_str : String) (nodes : List String) : List String :=
  let e := extract_nodes node_str
  nodes.filter (fun name => e.1 || valid_node name (e.2.2.getD []) (e.2.1.getD false))

/-- The shared execution context built in `Simulator.start` (lines 856-865)
plus the `cmd` slot written by the loop.  `experiment` is a `PyStr` because
`SimulatorStopCommand.execute` compares it with `is`. -/
structure ExecContext where
  experiment : PyStr
  nodes : List String
  state : Nat
  /-- the `variables` entry of the context (`variables` is reserved in Lean). -/
  vars : List (String × String)
  capture : Bool
  capture_data : List String
  cmd : Option (List String)
deriving DecidableEq, Repr

/-- The context as the Python dict seen by `ContextValidator.validate`:
the eight keys installed at lines 856-865 (with `commands`/`environment`
opaque) plus the `cmd` key written by the loop at line 902. -/
def ExecContext.toDict (ctx : ExecContext) : List (String × PyValue) :=
  [("experiment", .str ctx.experiment.val),
   ("nodes", .strList ctx.nodes),
   ("commands", .dict),
   ("environment", .env),
   ("state", .int (ctx.state : Int)),
   ("variables", .varMap ctx.vars),
   ("capture", .bool ctx.capture),
   ("capture_data", .strList ctx.capture_data),
   ("cmd", match ctx.cmd with | some c => .strList c | none => .noneVal)]

/-- `NodeCommand.__init__` context requirements (lines 337-340). -/
def nodeCommandContextRequired : List (String × EntryValidator) :=
  [("nodes", .arrayOfStringEntry),
   ("state", .autoEntry (.int (SimulatorState.started : Int)))]

/-- `NodeCommand.__init__` parameter requirements (lines 342-345). -/
def nodeCommandCmdRequired : ParamConstraints :=
  ⟨2, [(0, .stringEntry), (1, .stringEntry)]⟩

/-- Result of a node-dispatch `execute`: the list of nodes for which a task
was submitted to the worker pool (in submission order), and the control
outcome. -/
structure DispatchResult where
  submitted : List String
  outcome : Except PyError Unit
deriving DecidableEq, Repr

/-- `NodeCommand.execute` (lines 357-388).  After the inherited context and
parameter validation, the dict comprehension submits one task per node
matching the pattern; if NO node matched, line 377 evaluates
`'Invalid node name {}'.format(node)` — but `node` is not bound anywhere in
the method's scope (the comprehension variable is `name` and does not leak
in Python 2.7), so a `NameError` is raised instead of the intended
`CommandException`.  External task results (and the capture-append of
successful outputs) are outside this embedding; a non-empty submission is
recorded as `.ok`. -/
def nodeCommand_execute (ctx : ExecContext) : DispatchResult :=
  match contextValidator_validate nodeCommandContextRequired ctx.toDict with
  | .error e => ⟨[], .error e⟩
  | .ok _ =>
    match paramValidator_validate (some nodeCommandCmdRequired) ctx.cmd with
    | .error e => ⟨[], .error e⟩
    | .ok _ =>
      match ctx.cmd with
      | some (pat :: _) =>
        let submitted := selectNodes pat ctx.nodes
        if submitted.isEmpty then
          ⟨submitted, .error (.nameError "name node is not defined")⟩
        else ⟨submitted, .ok ()⟩
      | _ => ⟨[], .error (.typeError "unreachable: param validation requires two tokens")⟩

/-- The context patch returned by a successful stop (lines 654-658);
`network` is also reset there but is not tracked in `ExecContext`. -/
structure StopPatch where
  state : Nat
  nodes : List String
deriving DecidableEq, Repr

/-- `SimulatorStopCommand.execute` (lines 641-662).  It never calls
`super().execute`, so neither validator runs.  The external teardown
(`imunes -b -e`) is assumed to succeed.  Line 645 picks the explicit
parameter when present, and line 652 guards the context patch with
`experiment is sim_experiment` — an object-identity test, not a value
test — so a patch is returned only when the two are the same object. -/
def simulatorStop_execute (cmd : Option (List PyStr)) (sim_experiment : PyStr) :
    Option StopPatch :=
  let experiment :=
    match cmd with
    | some (e :: _) => e
    | _ => sim_experiment
  if pyIs experiment sim_experiment then
    some ⟨SimulatorState.stopped, []⟩
  else none

/-- Merging a stop patch into the context (`context.update(result)` at
line 920, applied only when the patch is truthy). -/
def applyStopPatch (ctx : ExecContext) (p : Option StopPatch) : ExecContext :=
  match p with
  | some patch => { ctx with state := patch.state, nodes := patch.nodes }
  | none => ctx

/-- `SimulatorSleepCommand.execute` (lines 679-681).  It does NOT call
`super().execute`, so the declared `ParamConstraints(1, {0:
IntegerContextEntry()})` are never evaluated; the body immediately runs
`int(context.get('cmd')[0])` and then `time.sleep`.  The returned value is
the number of seconds slept (the blocking sleep itself is a side effect
outside the embedding). -/
def simulatorSleep_execute (cmd : Option (List String)) : Except PyError Int :=
  match cmd with
  | none => .error (.typeError "NoneType object is not subscriptable")
  | some [] => .error (.indexError "list index out of range")
  | some (s :: _) =>
    match pyInt? s with
    | some n => .ok n
    | none => .error (.valueError "invalid literal for int()")

/-- Python `s[:-1]`: the string without its final character (empty stays
empty).  This is the capture-append transformation of line 384
(`capture_data.append(result[:-1])`). -/
def pySliceDropLast (s : String) : String := ⟨s.data.dropLast⟩

/-- The value stored by `SimulatorExportCommand.execute` (line 818):
`output[:-1] if output else ''` — unconditionally drops the final character
of a non-empty output, whatever that character is. -/
def simulatorExport_store (output : String) : String :=
  if output = "" then "" else pySliceDropLast output

/-- `NodeDumpOutputCommand` parameter requirements (lines 417-419). -/
def nodeDumpCmdRequired : ParamConstraints := ⟨1, [(0, .stringEntry)]⟩

/-- Outcome of a successful dump: the bytes written to the target file and
the context patch `{'capture': False, 'capture_data': []}` (lines 446-449). -/
structure DumpOutcome where
  fileContent : String
  capture : Bool
  capture_data : List String
deriving DecidableEq, Repr

/-- The write loop of `NodeDumpOutputCommand.execute` (lines 440-441):
`for line in data: out.write(line)` — entries are written back to back,
with no separator added. -/
def writeLines (data : List String) : String :=
  data.foldl (fun out line => out ++ line) ""

/-- `NodeDumpOutputCommand.execute` (lines 429-451) on the success path of
the file write (an I/O failure would raise `CommandException` instead).
Context constraints are `None`, so only the parameter validator runs. -/
def nodeDump_execute (cmd : Option (List String)) (data : List String) :
    Except PyError DumpOutcome :=
  match paramValidator_validate (some nodeDumpCmdRequired) cmd with
  | .error e => .error e
  | .ok _ => .ok ⟨writeLines data, false, []⟩

/-- The number of lines of a written file, as a reader (or Python
`readlines`) counts them: one per newline character, plus a final unterminated
line if the content does not end in a newline. -/
def countFileLines (s : String) : Nat :=
  s.data.count '\x0a' + (if s.data ≠ [] ∧ s.data.getLast? ≠ some '\x0a' then 1 else 0)

/-- Python `str.replace(old, new)` on character lists, fuel-indexed to keep
the recursion structural: at each position, if `old` (nonempty) is a prefix,
it is consumed and `new` emitted (the inserted `new` is NOT rescanned);
otherwise one character is copied.  `pyReplace` below supplies enough fuel
(one unit per position) for the scan to complete. -/
def pyReplaceAux (old new : List Char) : Nat → List Char → List Char
  | 0, s => s
  | _ + 1, [] => []
  | fuel + 1, c :: rest =>
    if old.isPrefixOf (c :: rest) && !old.isEmpty then
      new ++ pyReplaceAux old new fuel (List.drop (old.length - 1) rest)
    else c :: pyReplaceAux old new fuel rest

/-- Python `s.replace(old, new)` for a nonempty `old` (the embedded code only
replaces `"%{"`, `"}"` and decorated variable names). -/
def pyReplace (s old new : List Char) : List Char :=
  pyReplaceAux old new s.length s

/-- `pyReplace` lifted to `String`. -/
def pyStrReplace (s old new : String) : String :=
  ⟨pyReplace s.data old.data new.data⟩

/-- Scanner state for the regex `%\{[^\}]*\}`: outside any candidate, just
after an unmatched `%`, or inside `%{...` collecting the greedy `[^}]*` run. -/
inductive ScanState where
  | out
  | sawPct
  | inside (buf : List Char)
deriving DecidableEq, Repr

/-- `Simulator._var_regex.findall` (pattern `%\{[^\}]*\}`, line 831) as a
left-to-right character scan: a `%` followed by `{` opens a candidate, the
candidate greedily collects non-`}` characters, and the first `}` closes and
emits the whole match; scanning resumes after the match.  A candidate with
no closing brace matches nothing (and no later match is possible, since any
match needs a `}`). -/
def scanVarsAux (st : ScanState) : List Char → List (List Char)
  | [] => []
  | c :: rest =>
    match st with
    | .out => if c = '%' then scanVarsAux .sawPct rest else scanVarsAux .out rest
    | .sawPct =>
      if c = '\x7b' then scanVarsAux (.inside []) rest
      else if c = '%' then scanVarsAux .sawPct rest
      else scanVarsAux .out rest
    | .inside buf =>
      if c = '\x7d' then ('%' :: '\x7b' :: (buf ++ ['\x7d'])) :: scanVarsAux .out rest
      else scanVarsAux (.inside (buf ++ [c])) rest

/-- The matches of `%\{[^\}]*\}` in a line, as strings. -/
def var_regex_findall (line : String) : List String :=
  (scanVarsAux .out line.data).map String.mk

/-- `Simulator._extract_var_names` (lines 937-948): each regex match has all
`%{` occurrences removed and then all `}` characters removed. -/
def extract_var_names (line : String) : List String :=
  (scanVarsAux .out line.data).map
    (fun m => String.mk (pyReplace (pyReplace m ['%', '\x7b'] []) ['\x7d'] []))

/-- `Simulator._decorate_var` (lines 934-935). -/
def decorate_var (v : String) : String := "%\x7b" ++ v ++ "\x7d"

/-- `Simulator._replace_vars` (lines 965-971): for each extracted name bound
in the variables map, replace every occurrence of its decorated form in the
(evolving) line with the variable's value. -/
def replace_vars (line : String) (extracted : List String)
    (env_variables : List (String × String)) : String :=
  match extracted with
  | [] => line
  | e :: rest =>
    match env_variables.lookup e with
    | some value => replace_vars (pyStrReplace line (decorate_var e) value) rest env_variables
    | none => replace_vars line rest env_variables

/-- The per-token substitution performed on each element of `data` inside
`Simulator._set_cmd_vars` (lines 956-960). -/
def substitute_item (env_variables : List (String × String)) (item : String) : String :=
  replace_vars item (extract_var_names item) env_variables

/-- `Simulator._set_cmd_vars` (lines 950-963): `None` when there are no
parameters, otherwise each token substituted. -/
def set_cmd_vars (env_variables : List (String × String)) (data : List String) :
    Option (List String) :=
  match data with
  | [] => none
  | _ => some (data.map (substitute_item env_variables))

/-- A token shape used to STATE the substitution property: a concatenation of
literal pieces and `%{name}` placeholders. -/
inductive TokenSeg where
  | lit (s : String)
  | var (name : String)
deriving DecidableEq, Repr

/-- The concrete text of a segment. -/
def TokenSeg.render : TokenSeg → String
  | .lit s => s
  | .var n => decorate_var n

/-- The token spelled by a list of segments. -/
def renderToken (segs : List TokenSeg) : String :=
  String.join (segs.map TokenSeg.render)

/-- What the specification expects substitution to produce for one segment:
literals kept, a placeholder replaced by its bound value, an unbound
placeholder left verbatim. -/
def TokenSeg.resolve (env_variables : List (String × String)) : TokenSeg → String
  | .lit s => s
  | .var n =>
    match env_variables.lookup n with
    | some v => v
    | none => decorate_var n

/-- No `%` character occurs in the list. -/
def noPct (l : List Char) : Bool := l.all (fun c => c != '%')

/-- Characters allowed in a placeholder name: anything except `%`, `{`, `}`. -/
def identCharsL (l : List Char) : Bool :=
  l.all (fun c => c != '%' && c != '\x7b' && c != '\x7d')

/-- A well-formed segment: literals without `%`, names in ident characters. -/
def goodSeg : TokenSeg → Bool
  | .lit s => noPct s.data
  | .var n => identCharsL n.data

/-- A variables map whose values contain no `%` character (so substituted
values can never be re-substituted by a later pass). -/
def goodVars (env_variables : List (String × String)) : Bool :=
  env_variables.all (fun kv => noPct kv.2.data)

/-- The character-level form of a decorated variable name. -/
def decChars (n : List Char) : List Char := '%' :: '\x7b' :: (n ++ ['\x7d'])

/-- Proof-support description of the line during `_replace_vars`: the
characters a segment contributes once the names in `done` have been
processed — a bound placeholder whose name was processed has become its
value, everything else is still its original text. -/
def blockOfSeg (env_variables : List (String × String)) (done : List String) :
    TokenSeg → List Char
  | .lit s => s.data
  | .var nm =>
    if (env_variables.lookup nm).isSome ∧ nm ∈ done
    then ((env_variables.lookup nm).getD "").data
    else decChars nm.data

/-- A context patch as merged by `context.update(result)` at line 920. -/
structure CtxPatch where
  state : Option Nat := none
  nodes : Option (List String) := none
  capture : Option Bool := none
  capture_data : Option (List String) := none
deriving DecidableEq, Repr

def applyPatch (ctx : ExecContext) (p : CtxPatch) : ExecContext :=
  { ctx with
    state := p.state.getD ctx.state,
    nodes := p.nodes.getD ctx.nodes,
    capture := p.capture.getD ctx.capture,
    capture_data := p.capture_data.getD ctx.capture_data }

/-- What one command invocation hands back to the loop. -/
inductive StepResult where
  | patch (p : Option CtxPatch)
  | raised (e : PyError)
deriving DecidableEq, Repr

/-- The full command catalog registered in `Simulator.__init__`
(lines 836-852). -/
def catalogNames : List String :=
  ["start", "stop", "sleep", "help", "env", "local", "export", "experiment",
   "print", "exit", "node", "node-d", "copy", "capture", "dump", "ip-addr"]

/-- `SimulatorStopCommand.execute` as dispatched from the loop, where `cmd`
tokens are fresh strings produced by `shlex.split`: a fresh multi-character
token is never the SAME OBJECT as the stored experiment string, so with an
explicit argument the identity test at line 652 fails and no patch is
returned; with no argument, `experiment` IS `sim_experiment` and the patch
`{'state': stopped, 'network': None, 'nodes': []}` is returned. -/
def loopStop_patch (cmd : Option (List String)) : Option CtxPatch :=
  match cmd with
  | some (_ :: _) => none
  | _ => some { state := some SimulatorState.stopped, nodes := some ([] : List String) }

/-- The context patch of `NodeCaptureOutputCommand.execute` (lines 405-408). -/
def capturePatch : CtxPatch :=
  { capture := some true, capture_data := some ([] : List String) }

/-- Dispatch of the commands modelled at loop level.  `exit` raises
`ExitException` (line 690); `stop` is `loopStop_patch` (assuming the external
teardown succeeds); `sleep` is `simulatorSleep_execute`; `capture` returns
its patch; `help`, `env` and `print` only print and return `None`.  The
remaining catalog commands invoke external processes or mutate files and are
kept out of the loop model (runs restricted by `modeledLine`). -/
def dispatchCommand (name : String) (ctx : ExecContext) : StepResult :=
  if name = "exit" then .raised .exitException
  else if name = "stop" then .patch (loopStop_patch ctx.cmd)
  else if name = "sleep" then
    match simulatorSleep_execute ctx.cmd with
    | .ok _ => .patch none
    | .error e => .raised e
  else if name = "capture" then .patch (some capturePatch)
  else .patch none

/-- Result of running `Simulator._start`'s while-loop on a list of input
lines: either the input ends while `working` is still true — in which case
`file.readline()` returns `''` forever and the Python loop never exits (it
spins at lines 879-883, so `_cleanup` is NEVER reached on input
exhaustion) — or `working` became false and the context at that moment is
returned. -/
inductive LoopOutcome where
  | spins (ctx : ExecContext)
  | exited (ctx : ExecContext)
deriving DecidableEq, Repr

/-- The read-eval loop of `Simulator._start` (lines 875-923) over
pre-tokenized lines (`shlex.split` is outside the model).  Blank lines and
`#`-comments are skipped; known commands get `context['cmd']` set to the
substituted parameters and are executed, with the exception cascade of
lines 907-917; unknown names print a diagnostic and continue. -/
def runLoop : List (List String) → ExecContext → LoopOutcome
  | [], ctx => .spins ctx
  | line :: rest, ctx =>
    match line with
    | [] => runLoop rest ctx
    | name :: data =>
      if name.data.head? = some '#' then runLoop rest ctx
      else if catalogNames.contains name then
        let ctx2 := { ctx with cmd := set_cmd_vars ctx.vars data }
        match dispatchCommand name ctx2 with
        | .raised .exitException => .exited ctx2
        | .raised (.commandException _) => runLoop rest ctx2
        | .raised _ => .exited ctx2
        | .patch none => runLoop rest ctx2
        | .patch (some p) => runLoop rest (applyPatch ctx2 p)
      else runLoop rest ctx

/-- `Simulator._cleanup` (lines 927-929): when the state is still `started`,
`stop.execute(context)` is invoked — but its returned context patch is
DISCARDED (`_cleanup` never calls `context.update`), so the context is
returned unchanged.  The boolean records whether the automatic stop ran. -/
def runCleanup (ctx : ExecContext) : ExecContext × Bool :=
  if ctx.state == SimulatorState.started then
    let _discarded := loopStop_patch ctx.cmd
    (ctx, true)
  else (ctx, false)

/-- A terminated run: the context at loop exit, the context after `_cleanup`,
and whether the automatic stop was invoked. -/
structure RunResult where
  preCleanup : ExecContext
  final : ExecContext
  autoStopInvoked : Bool
deriving DecidableEq, Repr

/-- A whole `_start` call: `none` when the loop never terminates (input
exhaustion), otherwise the loop-exit context, the post-cleanup context and
the auto-stop flag. -/
def fullRun (lines : List (List String)) (ctx : ExecContext) : Option RunResult :=
  match runLoop lines ctx with
  | .spins _ => none
  | .exited pre =>
    let c := runCleanup pre
    some ⟨pre, c.1, c.2⟩

/-- Lines whose leading token is a comment, one of the loop-modelled
commands, or not a command at all (in particular not the `source`
pseudo-command and not one of the unmodelled external-process commands). -/
def modeledLine (line : List String) : Bool :=
  match line with
  | [] => true
  | name :: _ =>
    (name.data.head? == some '#') ||
    (["stop", "sleep", "help", "env", "print", "exit", "capture"] : List String).contains name ||
    (!catalogNames.contains name && name != "source")

/-- A context in the started state with one known node and no pending
command tokens. -/
def ctxStarted : ExecContext :=
  ⟨⟨0, "SIM"⟩, ["n1"], SimulatorState.started, [], false, [], none⟩

/-- A context in the IDLE state handed a `node * echo hi` command line. -/
def ctxIdleDispatch : ExecContext :=
  ⟨⟨0, "SIM"⟩, ["n1"], SimulatorState.idle, [], false, [], some ["*", "echo", "hi"]⟩

/-- A started context handed a `node zzz echo hi` line whose pattern matches
none of the known nodes. -/
def ctxZeroMatch : ExecContext :=
  ⟨⟨0, "SIM"⟩, ["n1", "n2"], SimulatorState.started, [], false, [], some ["zzz", "echo", "hi"]⟩


/-! ### Theorems -/

/-- C1: the state gating of node-dispatch commands is declared but not
enforced — `ContextValidator.validate` checks only that the required KEYS
(`nodes`, `state`) exist, never invoking the attached entry validators, so
validation succeeds for EVERY state and node-list value; concretely, a
`node * echo hi` line executed against an idle context passes both
validators and proceeds into the dispatch block, submitting a task for the
known node instead of failing with a validation error. -/
theorem node_dispatch_state_gating_not_enforced :
    (∀ (stateVal : Nat) (nodesVal : List String),
      contextValidator_validate nodeCommandContextRequired
        (ExecContext.toDict
          ⟨⟨0, "SIM"⟩, nodesVal, stateVal, [], false, [], some ["*", "echo", "hi"]⟩)
        = Except.ok ()) ∧
    nodeCommand_execute ctxIdleDispatch = ⟨["n1"], Except.ok ()⟩ :=
  ⟨fun _ _ => rfl, by decide⟩

/-- C2: a node dispatch whose pattern matches zero known nodes submits no
task, but the `raise CommandException('Invalid node name {}'.format(node))`
at line 377 references the unbound name `node`, so a `NameError` is raised
instead; the loop treats a `NameError` as a fatal unexpected error
(`fatalExit`), unlike a `CommandException` (`keepGoing`). -/
theorem node_zero_match_raises_name_error :
    nodeCommand_execute ctxZeroMatch
      = ⟨[], Except.error (PyError.nameError "name node is not defined")⟩ ∧
    classifyError (PyError.nameError "name node is not defined") = LoopAction.fatalExit ∧
    classifyError (PyError.commandException "Invalid node name") = LoopAction.keepGoing := by
  decide

/-- C4: a stop invoked with an explicit experiment parameter that is EQUAL
IN VALUE to the current experiment name but a distinct string object (as any
`shlex`-parsed token is) fails the identity test `experiment is
sim_experiment` of line 652, so no context patch is produced and the merged
context keeps `state = started` and its node list — the reset happens only
on the no-argument path, where the two are the same object. -/
theorem stop_identity_comparison_no_reset :
    (⟨1, "SIM"⟩ : PyStr).val = (⟨0, "SIM"⟩ : PyStr).val ∧
    simulatorStop_execute (some [⟨1, "SIM"⟩]) ⟨0, "SIM"⟩ = none ∧
    (applyStopPatch ctxStarted (simulatorStop_execute (some [⟨1, "SIM"⟩]) ⟨0, "SIM"⟩)).state
      = SimulatorState.started ∧
    (applyStopPatch ctxStarted (simulatorStop_execute (some [⟨1, "SIM"⟩]) ⟨0, "SIM"⟩)).nodes
      = ["n1"] ∧
    (applyStopPatch ctxStarted (simulatorStop_execute none ⟨0, "SIM"⟩)).state
      = SimulatorState.stopped := by
  decide

/-- C5: `SimulatorSleepCommand.execute` never runs its declared parameter
validator (no `super().execute` call), so a non-integer parameter reaches
`int(...)` directly and raises a bare `ValueError` — which the loop treats
as a FATAL unexpected error, not as a reported-and-continue validation
error.  No sleep is performed on such an input (the conversion fails before
`time.sleep`). -/
theorem sleep_missing_validation_fatal :
    simulatorSleep_execute (some ["abc"])
      = Except.error (PyError.valueError "invalid literal for int()") ∧
    classifyError (PyError.valueError "invalid literal for int()") = LoopAction.fatalExit ∧
    classifyError (PyError.commandException "Integer expected for 0") = LoopAction.keepGoing ∧
    (∀ n : Int, simulatorSleep_execute (some ["abc"]) ≠ Except.ok n) := by
  refine ⟨by decide, by decide, by decide, fun n h => ?_⟩
  rw [show simulatorSleep_execute (some ["abc"])
        = Except.error (PyError.valueError "invalid literal for int()") from by decide] at h
  exact Except.noConfusion h

/-- C8: `IntegerContextEntry.validate` can never succeed: its constructor
stores an uncompiled pattern STRING in `self._regex`, so after the integer
conversion and the exact-match check both pass, the inherited
`ContextEntryType.validate` calls `.match` on a plain string and raises
`AttributeError`.  With constraint 2: input `"2"` reaches that
`AttributeError` (it does NOT pass), `"3"` fails the constraint with
`ValueError`, `"2.0"` fails the conversion with `ValueError`. -/
theorem integer_exact_validator_always_raises :
    integerContextEntry_validate (some 2) "state" "2"
      = Except.error (PyError.attributeError "str object has no attribute match") ∧
    integerContextEntry_validate (some 2) "state" "3"
      = Except.error (PyError.valueError "Expected value for state") ∧
    integerContextEntry_validate (some 2) "state" "2.0"
      = Except.error (PyError.valueError "Integer expected for state") ∧
    (∀ (k : Int) (key value : String) (u : Unit),
      integerContextEntry_validate (some k) key value ≠ Except.ok u) := by
  refine ⟨by decide, by decide, by decide, fun k key value u => ?_⟩
  unfold integerContextEntry_validate
  cases pyInt? value with
  | none => simp
  | some c =>
    by_cases hc : c ≠ k
    · simp [hc]
    · simp [hc]

/-- C10: the stored value of `export` (line 818) and the capture-append of
node dispatch (line 384) drop EXACTLY the final character of a non-empty
output, whatever that character is — appending any character `c` to any
string `s` and storing the result yields `s` back — and the empty output is
stored as the empty string.  It is a slice `[:-1]`, not a conditional
trailing-newline strip. -/
theorem export_capture_trim_exact_last_char (s : String) (c : Char) :
    simulatorExport_store (s.push c) = s ∧
    pySliceDropLast (s.push c) = s ∧
    simulatorExport_store "" = "" ∧
    pySliceDropLast "" = "" := by
  obtain ⟨sd⟩ := s
  have h2 : pySliceDropLast (String.mk sd |>.push c) = String.mk sd := by
    show (⟨(sd ++ [c]).dropLast⟩ : String) = String.mk sd
    rw [List.dropLast_concat]
  have hne : (String.mk sd |>.push c) ≠ "" := by
    intro h
    have hd : sd ++ [c] = ([] : List Char) := congrArg String.data h
    simp at hd
  refine ⟨?_, h2, rfl, rfl⟩
  rw [simulatorExport_store, if_neg hne]
  exact h2

/-- C9 (counterexample): capturing two successful node invocations with
outputs `"a\n"` and `"b\n"` buffers the trimmed entries `"a"` and `"b"`;
`dump` then writes them back to back with no separator, producing the file
`"ab"` — ONE line, not two — so the written file's line count does not equal
the number of captured invocations. -/
theorem dump_single_line_cex :
    nodeDump_execute (some ["out.txt"]) [pySliceDropLast "a\x0a", pySliceDropLast "b\x0a"]
      = Except.ok ⟨"ab", false, []⟩ ∧
    countFileLines "ab" = 1 ∧
    countFileLines "ab" ≠ 2 := by
  decide

/-- C3 (counterexample): running the loop on the single line `exit` from a
started context terminates it by exit signal; `_cleanup` invokes the stop
command (auto-stop flag true) but discards its context patch, so the final
context still has `state = started`, NOT `stopped` — the context does not
reflect the stopped state after the automatic stop. -/
theorem auto_stop_patch_discarded_cex :
    fullRun [["exit"]] ctxStarted = some ⟨ctxStarted, ctxStarted, true⟩ ∧
    ctxStarted.state = SimulatorState.started ∧
    ctxStarted.state ≠ SimulatorState.stopped := by
  decide

/-- C3 (amended): whenever the read-eval loop terminates (exit signal or
fatal error — input exhaustion makes it spin forever instead) with the state
still `started`, `_cleanup` invokes the stop command exactly once, at loop
exit; but the stop's returned context patch is discarded, so the final
context is IDENTICAL to the loop-exit context and in particular still has
`state = started` (the external teardown runs, no state transition is
recorded).  The `modeledLine` hypothesis restricts runs to the commands the
loop model covers. -/
theorem auto_stop_runs_but_context_unchanged
    (lines : List (List String)) (ctx : ExecContext)
    (hm : lines.all modeledLine = true)
    (res : RunResult) (hres : fullRun lines ctx = some res)
    (hstarted : res.preCleanup.state = SimulatorState.started) :
    res.autoStopInvoked = true ∧ res.final = res.preCleanup ∧
    res.final.state = SimulatorState.started := by
  unfold fullRun at hres
  cases hl : runLoop lines ctx with
  | spins c => rw [hl] at hres; exact Option.noConfusion hres
  | exited pre =>
    rw [hl] at hres
    have hres2 : (⟨pre, (runCleanup pre).1, (runCleanup pre).2⟩ : RunResult) = res :=
      Option.some.inj hres
    subst hres2
    have hpre : pre.state = SimulatorState.started := hstarted
    have hcl : runCleanup pre = (pre, true) := by
      unfold runCleanup
      rw [if_pos (by rw [hpre]; rfl)]
    refine ⟨?_, ?_, ?_⟩
    · show (runCleanup pre).2 = true
      rw [hcl]
    · show (runCleanup pre).1 = pre
      rw [hcl]
    · show (runCleanup pre).1.state = SimulatorState.started
      rw [hcl]; exact hpre

/-- Witness for `auto_stop_runs_but_context_unchanged`: the concrete run of
the single line `exit` from `ctxStarted`. -/
theorem auto_stop_runs_but_context_unchanged_witness :
    (⟨ctxStarted, ctxStarted, true⟩ : RunResult).autoStopInvoked = true ∧
    (⟨ctxStarted, ctxStarted, true⟩ : RunResult).final
      = (⟨ctxStarted, ctxStarted, true⟩ : RunResult).preCleanup ∧
    (⟨ctxStarted, ctxStarted, true⟩ : RunResult).final.state = SimulatorState.started :=
  auto_stop_runs_but_context_unchanged [["exit"]] ctxStarted (by decide)
    ⟨ctxStarted, ctxStarted, true⟩ (by decide) (by decide)

/-- `extract_nodes` on the literal `*` pattern. -/
theorem extract_nodes_star : extract_nodes "*" = (true, none, none) := by
  unfold extract_nodes
  rw [if_pos rfl]

/-- `extract_nodes` on a pattern with a leading tilde. -/
theorem extract_nodes_tilde (rest : List Char) :
    extract_nodes (String.mk ('~' :: rest))
      = (false, some true, some ((splitCommaAux rest).map String.mk)) := by
  unfold extract_nodes
  rw [if_neg]
  · rfl
  · intro h
    have hd : ('~' :: rest) = "*".data := congrArg String.data h
    rw [show "*".data = ['*'] from rfl] at hd
    simp at hd

/-- `extract_nodes` on a plain comma-separated prefix pattern. -/
theorem extract_nodes_plain (pat : String) (h1 : pat ≠ "*")
    (h2 : pat.data.head? ≠ some '~') :
    extract_nodes pat
      = (false, some false, some ((splitCommaAux pat.data).map String.mk)) := by
  unfold extract_nodes
  rw [if_neg h1]
  cases hd : pat.data with
  | nil => rfl
  | cons c tl =>
    have hc : c ≠ '~' := by
      intro hceq
      rw [hd, hceq] at h2
      exact h2 rfl
    split
    · next r heq =>
      exact absurd (List.cons.inj heq).1 hc
    · rfl

/-- `_valid_node` with negation is the boolean complement of the prefix
test. -/
theorem valid_node_neg (node : String) (nodes : List String) :
    valid_node node nodes true
      = !(nodes.any (fun pre => pre.data.isPrefixOf node.data)) := rfl

/-- `_valid_node` without negation is the prefix test itself. -/
theorem valid_node_pos (node : String) (nodes : List String) :
    valid_node node nodes false
      = nodes.any (fun pre => pre.data.isPrefixOf node.data) := rfl

/-- `selectNodes` with the `*` pattern keeps every node. -/
theorem selectNodes_star (ns : List String) : selectNodes "*" ns = ns := by
  simp [selectNodes, extract_nodes_star]

/-- `selectNodes` with a tilde pattern filters by the negated prefix test. -/
theorem selectNodes_tilde (rest : List Char) (ns : List String) :
    selectNodes (String.mk ('~' :: rest)) ns
      = ns.filter (fun name =>
          !((splitCommaAux rest).map String.mk).any
            (fun p => p.data.isPrefixOf name.data)) := by
  simp only [selectNodes, extract_nodes_tilde, Option.getD, Bool.false_or]
  apply List.filter_congr
  intro x _
  exact valid_node_neg x _

/-- `selectNodes` with a plain pattern filters by the prefix test. -/
theorem selectNodes_plain (pat : String) (h1 : pat ≠ "*")
    (h2 : pat.data.head? ≠ some '~') (ns : List String) :
    selectNodes pat ns
      = ns.filter (fun name =>
          ((splitCommaAux pat.data).map String.mk).any
            (fun p => p.data.isPrefixOf name.data)) := by
  simp only [selectNodes, extract_nodes_plain pat h1 h2, Option.getD, Bool.false_or]
  apply List.filter_congr
  intro x _
  exact valid_node_pos x _

/-- C6: the node-pattern semantics — `*` selects exactly the known node
list; a leading-tilde pattern selects exactly the known nodes NOT having any
of the comma-separated prefixes as a (case-sensitive) character prefix; any
other pattern selects exactly the known nodes having at least one of its
comma-separated prefixes as a prefix. -/
theorem node_pattern_matching_semantics (ns : List String) (n : String) :
    (selectNodes "*" ns = ns) ∧
    (∀ rest : String,
      n ∈ selectNodes (String.mk ('~' :: rest.data)) ns ↔
        n ∈ ns ∧ ¬ (((splitCommaAux rest.data).map String.mk).any
            (fun p => p.data.isPrefixOf n.data) = true)) ∧
    (∀ pat : String, pat ≠ "*" → pat.data.head? ≠ some '~' →
      (n ∈ selectNodes pat ns ↔
        n ∈ ns ∧ ((splitCommaAux pat.data).map String.mk).any
            (fun p => p.data.isPrefixOf n.data) = true)) := by
  refine ⟨selectNodes_star ns, ?_, ?_⟩
  · intro rest
    rw [selectNodes_tilde rest.data ns, List.mem_filter]
    simp
  · intro pat h1 h2
    rw [selectNodes_plain pat h1 h2 ns, List.mem_filter]

/-- Witness for `node_pattern_matching_semantics` at concrete patterns and
node lists. -/
theorem node_pattern_matching_semantics_witness :
    (selectNodes "*" ["alpha", "beta"] = ["alpha", "beta"]) ∧
    ("alpha" ∈ selectNodes (String.mk ('~' :: "be".data)) ["alpha", "beta"] ↔
      "alpha" ∈ (["alpha", "beta"] : List String) ∧
        ¬ (((splitCommaAux "be".data).map String.mk).any
            (fun p => p.data.isPrefixOf "alpha".data) = true)) ∧
    ("beta" ∈ selectNodes "be,x" ["alpha", "beta"] ↔
      "beta" ∈ (["alpha", "beta"] : List String) ∧
        ((splitCommaAux "be,x".data).map String.mk).any
            (fun p => p.data.isPrefixOf "beta".data) = true) :=
  ⟨(node_pattern_matching_semantics ["alpha", "beta"] "x").1,
   (node_pattern_matching_semantics ["alpha", "beta"] "alpha").2.1 "be",
   (node_pattern_matching_semantics ["alpha", "beta"] "beta").2.2 "be,x"
     (by decide) (by decide)⟩

/-- Concatenating strings with the dump write loop concatenates their
character lists. -/
theorem foldl_append_data (l : List String) (acc : String) :
    (l.foldl (fun r s => r ++ s) acc).data = acc.data ++ (l.map String.data).flatten := by
  induction l generalizing acc with
  | nil => simp
  | cons x xs ih =>
    simp [List.foldl_cons, ih, List.append_assoc]

/-- The characters written by the dump loop are the flattened characters of
the captured entries. -/
theorem writeLines_data (data : List String) :
    (writeLines data).data = (data.map String.data).flatten := by
  unfold writeLines
  rw [foldl_append_data]
  rfl

/-- C9 (amended): `dump` writes exactly the concatenation of the captured
(newline-trimmed) entries, with NO separator added, and afterwards the
capture buffer is empty and the capture flag is off; consequently, when the
entries are newline-free and the concatenation is non-empty the written
file has exactly ONE line — not one line per captured invocation. -/
theorem dump_concatenation_amended (cmd0 : String) (data : List String)
    (hnl : data.all (fun d => d.data.all (fun c => c != '\x0a')) = true)
    (hne : writeLines data ≠ "") :
    nodeDump_execute (some [cmd0]) data = Except.ok ⟨writeLines data, false, []⟩ ∧
    writeLines data = String.join data ∧
    countFileLines (writeLines data) = 1 := by
  have hnotin : '\x0a' ∉ (writeLines data).data := by
    rw [writeLines_data]
    intro hmem
    rcases List.mem_flatten.mp hmem with ⟨l, hl, hcl⟩
    rcases List.mem_map.mp hl with ⟨d, hd, rfl⟩
    have h1 := List.all_eq_true.mp hnl d hd
    have h2 := List.all_eq_true.mp h1 '\x0a' hcl
    simp at h2
  have hne2 : (writeLines data).data ≠ [] := by
    intro h0
    apply hne
    apply String.ext
    rw [h0]
  have hlast : (writeLines data).data.getLast? ≠ some '\x0a' := by
    intro hl
    exact hnotin (List.mem_of_getLast?_eq_some hl)
  refine ⟨rfl, rfl, ?_⟩
  unfold countFileLines
  rw [List.count_eq_zero.mpr hnotin, if_pos ⟨hne2, hlast⟩]

/-- Witness for `dump_concatenation_amended` at a concrete buffer of two
newline-free entries. -/
theorem dump_concatenation_amended_witness :
    nodeDump_execute (some ["out.txt"]) ["a", "b"]
      = Except.ok ⟨writeLines ["a", "b"], false, []⟩ ∧
    writeLines ["a", "b"] = String.join ["a", "b"] ∧
    countFileLines (writeLines ["a", "b"]) = 1 :=
  dump_concatenation_amended "out.txt" ["a", "b"] (by decide) (by decide)

/-- Fuel irrelevance for the replace scan: any fuel at least the input
length computes the same result as exactly-length fuel. -/
theorem pyReplaceAux_fuel (old new : List Char) :
    ∀ (f : Nat) (s : List Char), s.length ≤ f →
      pyReplaceAux old new f s = pyReplaceAux old new s.length s := by
  intro f
  induction f using Nat.strong_induction_on with
  | _ f ih =>
    cases f with
    | zero =>
      intro s hs
      cases s with
      | nil => rfl
      | cons c r => simp at hs
    | succ g =>
      intro s hs
      cases s with
      | nil => rfl
      | cons c r =>
        have hr : r.length ≤ g := by
          simp only [List.length_cons] at hs
          exact Nat.le_of_succ_le_succ hs
        show (if (old.isPrefixOf (c :: r) && !old.isEmpty) = true then
                new ++ pyReplaceAux old new g (List.drop (old.length - 1) r)
              else c :: pyReplaceAux old new g r)
            = (if (old.isPrefixOf (c :: r) && !old.isEmpty) = true then
                new ++ pyReplaceAux old new r.length (List.drop (old.length - 1) r)
              else c :: pyReplaceAux old new r.length r)
        have hd : (List.drop (old.length - 1) r).length ≤ r.length := by
          rw [List.length_drop]
          exact Nat.sub_le _ _
        by_cases hcond : (old.isPrefixOf (c :: r) && !old.isEmpty) = true
        · rw [if_pos hcond, if_pos hcond]
          rw [ih g (Nat.lt_succ_self g) _ (le_trans hd hr),
              ih r.length (Nat.lt_succ_of_le hr) _ hd]
        · rw [if_neg hcond, if_neg hcond]
          rw [ih g (Nat.lt_succ_self g) r hr]

/-- Replacement in the empty string. -/
theorem pyReplace_nil (old new : List Char) : pyReplace [] old new = [] := rfl

/-- One scan step when `old` does not match at the head position. -/
theorem pyReplace_cons_nomatch (c : Char) (rest old new : List Char)
    (h : (old.isPrefixOf (c :: rest) && !old.isEmpty) = false) :
    pyReplace (c :: rest) old new = c :: pyReplace rest old new := by
  show (if (old.isPrefixOf (c :: rest) && !old.isEmpty) = true then
          new ++ pyReplaceAux old new rest.length (List.drop (old.length - 1) rest)
        else c :: pyReplaceAux old new rest.length rest)
      = c :: pyReplace rest old new
  rw [if_neg (by simp [h])]
  rfl

/-- A full match of `old` at the head is consumed and replaced by `new`
(the inserted text is not rescanned). -/
theorem pyReplace_match (old new t : List Char) (h : old ≠ []) :
    pyReplace (old ++ t) old new = new ++ pyReplace t old new := by
  cases old with
  | nil => exact absurd rfl h
  | cons o os =>
    have hpre : ((o :: os).isPrefixOf (o :: (os ++ t)) && !(o :: os).isEmpty) = true := by
      simp [List.isPrefixOf_iff_prefix]
    show (if ((o :: os).isPrefixOf (o :: (os ++ t)) && !(o :: os).isEmpty) = true then
            new ++ pyReplaceAux (o :: os) new (os ++ t).length
              (List.drop ((o :: os).length - 1) (os ++ t))
          else o :: pyReplaceAux (o :: os) new (os ++ t).length (os ++ t))
        = new ++ pyReplace t (o :: os) new
    rw [if_pos hpre]
    have h1 : (o :: os).length - 1 = os.length := by simp
    rw [h1, List.drop_left]
    rw [pyReplaceAux_fuel (o :: os) new (os ++ t).length t
          (by rw [List.length_append]; exact Nat.le_add_left _ _)]
    rfl

/-- Scanning over a stretch that does not contain the head character of
`old` copies it verbatim. -/
theorem pyReplace_append_skip (old new : List Char) (hc : Char)
    (hold : old.head? = some hc) :
    ∀ (l rest : List Char), hc ∉ l →
      pyReplace (l ++ rest) old new = l ++ pyReplace rest old new := by
  intro l
  induction l with
  | nil => intro rest _; simp
  | cons c cl ih =>
    intro rest hl
    have hcc : hc ≠ c := fun h => hl (h ▸ List.mem_cons_self c cl)
    have hcond : (old.isPrefixOf (c :: (cl ++ rest)) && !old.isEmpty) = false := by
      cases old with
      | nil => simp at hold
      | cons o os =>
        have ho : o = hc := by simpa using hold
        have hoc : (o == c) = false := by
          rw [beq_eq_false_iff_ne, ho]
          exact hcc
        simp [List.isPrefixOf_cons₂, hoc]
    rw [List.cons_append, pyReplace_cons_nomatch c (cl ++ rest) old new hcond,
        ih rest (fun h => hl (List.mem_cons_of_mem c h))]
    rfl

/-- A brace-free name followed by `}` is never a prefix of a DIFFERENT
brace-free name followed by `}` (plus anything). -/
theorem isPrefixOf_snoc_brace_false :
    ∀ (n m rest : List Char), '\x7d' ∉ n → '\x7d' ∉ m → n ≠ m →
      ((n ++ ['\x7d']).isPrefixOf (m ++ '\x7d' :: rest)) = false := by
  intro n
  induction n with
  | nil =>
    intro m rest _ hm hne
    cases m with
    | nil => exact absurd rfl hne
    | cons b bs =>
      have hb : (('\x7d' : Char) == b) = false := by
        rw [beq_eq_false_iff_ne]
        intro h
        exact hm (by rw [← h]; exact List.mem_cons_self _ _)
      show ((([] : List Char) ++ ['\x7d']).isPrefixOf ((b :: bs) ++ '\x7d' :: rest)) = false
      simp only [List.nil_append, List.cons_append, List.isPrefixOf_cons₂, hb, Bool.false_and]
  | cons a as ih =>
    intro m rest hn hm hne
    cases m with
    | nil =>
      have ha : ((a : Char) == '\x7d') = false := by
        rw [beq_eq_false_iff_ne]
        intro h
        exact hn (by rw [← h]; exact List.mem_cons_self _ _)
      show (((a :: as) ++ ['\x7d']).isPrefixOf (([] : List Char) ++ '\x7d' :: rest)) = false
      simp only [List.nil_append, List.cons_append, List.isPrefixOf_cons₂, ha, Bool.false_and]
    | cons b bs =>
      by_cases hab : a = b
      · subst hab
        have hne2 : as ≠ bs := fun h => hne (by rw [h])
        have hn2 : '\x7d' ∉ as := fun h => hn (List.mem_cons_of_mem a h)
        have hm2 : '\x7d' ∉ bs := fun h => hm (List.mem_cons_of_mem a h)
        show (((a :: as) ++ ['\x7d']).isPrefixOf ((a :: bs) ++ '\x7d' :: rest)) = false
        simp only [List.cons_append, List.isPrefixOf_cons₂, beq_self_eq_true, Bool.true_and]
        exact ih bs rest hn2 hm2 hne2
      · have hab2 : ((a : Char) == b) = false := beq_eq_false_iff_ne.mpr hab
        show (((a :: as) ++ ['\x7d']).isPrefixOf ((b :: bs) ++ '\x7d' :: rest)) = false
        simp only [List.cons_append, List.isPrefixOf_cons₂, hab2, Bool.false_and]

/-- A decorated name never matches at the start of a DIFFERENT decorated
name's block. -/
theorem decChars_not_prefixOf (n m rest : List Char)
    (hn : '\x7d' ∉ n) (hm : '\x7d' ∉ m) (hne : n ≠ m) :
    ((decChars n).isPrefixOf (decChars m ++ rest)) = false := by
  have h1 : decChars m ++ rest = '%' :: '\x7b' :: (m ++ '\x7d' :: rest) := by
    simp [decChars]
  rw [h1]
  show ((('%' : Char) :: '\x7b' :: (n ++ ['\x7d'])).isPrefixOf
        ('%' :: '\x7b' :: (m ++ '\x7d' :: rest))) = false
  simp only [List.isPrefixOf_cons₂, beq_self_eq_true, Bool.true_and]
  exact isPrefixOf_snoc_brace_false n m rest hn hm hne

/-- Decoration is injective. -/
theorem decChars_inj (n m : List Char) (h : decChars n = decChars m) : n = m := by
  unfold decChars at h
  injection h with _ h2
  injection h2 with _ h3
  exact List.append_cancel_right h3

/-- A `%`-free list does not contain `%`. -/
theorem noPct_not_mem (l : List Char) (h : noPct l = true) : '%' ∉ l := by
  intro hmem
  have h2 := List.all_eq_true.mp h '%' hmem
  simp at h2

/-- A `%`-free list is never a decorated block. -/
theorem noPct_ne_decChars (b : List Char) (h : noPct b = true) (n : List Char) :
    b ≠ decChars n := by
  intro he
  exact noPct_not_mem b h (by rw [he]; exact List.mem_cons_self _ _)

/-- Ident names contain no `%`. -/
theorem identCharsL_not_pct (n : List Char) (h : identCharsL n = true) : '%' ∉ n := by
  intro hmem
  have h2 := List.all_eq_true.mp h '%' hmem
  simp at h2

/-- Ident names contain no closing brace. -/
theorem identCharsL_not_brace (n : List Char) (h : identCharsL n = true) : '\x7d' ∉ n := by
  intro hmem
  have h2 := List.all_eq_true.mp h '\x7d' hmem
  simp at h2

/-- Replacing a decorated name in a concatenation of blocks (each either
`%`-free text or a decorated ident name) replaces exactly the blocks equal
to that decorated name, leaving every other block unchanged. -/
theorem pyReplace_blocks (n v : List Char)
    (hn : identCharsL n = true) :
    ∀ blocks : List (List Char),
      (∀ b ∈ blocks, noPct b = true ∨ ∃ m, b = decChars m ∧ identCharsL m = true) →
      pyReplace blocks.flatten (decChars n) v
        = (blocks.map (fun b => if b = decChars n then v else b)).flatten := by
  intro blocks
  induction blocks with
  | nil => intro _; rfl
  | cons b bs ih =>
    intro hb
    have hbs := fun x hx => hb x (List.mem_cons_of_mem b hx)
    have hbhead := hb b (List.mem_cons_self b bs)
    rw [List.flatten_cons, List.map_cons, List.flatten_cons]
    rcases hbhead with hb1 | ⟨m, rfl, hm⟩
    · rw [pyReplace_append_skip (decChars n) v '%' rfl b bs.flatten (noPct_not_mem b hb1)]
      rw [if_neg (noPct_ne_decChars b hb1 n)]
      rw [ih hbs]
    · by_cases hmn : m = n
      · subst hmn
        rw [pyReplace_match (decChars m) v bs.flatten (by simp [decChars])]
        rw [if_pos rfl]
        rw [ih hbs]
      · have hne : decChars m ≠ decChars n := fun h => hmn (decChars_inj m n h)
        have hnp : ((decChars n).isPrefixOf (decChars m ++ bs.flatten)) = false :=
          decChars_not_prefixOf n m bs.flatten (identCharsL_not_brace n hn)
            (identCharsL_not_brace m hm) (fun h => hmn h.symm)
        have hstep : decChars m ++ bs.flatten
            = '%' :: (('\x7b' :: (m ++ ['\x7d'])) ++ bs.flatten) := by
          simp [decChars]
        have hnotmem : '%' ∉ ('\x7b' :: (m ++ ['\x7d'])) := by
          intro hmem
          rcases List.mem_cons.mp hmem with h1 | h2
          · exact absurd h1 (by decide)
          · rcases List.mem_append.mp h2 with h3 | h4
            · exact identCharsL_not_pct m hm h3
            · simp at h4
        rw [hstep]
        rw [pyReplace_cons_nomatch '%' (('\x7b' :: (m ++ ['\x7d'])) ++ bs.flatten)
              (decChars n) v (by rw [← hstep, hnp]; simp)]
        rw [pyReplace_append_skip (decChars n) v '%' rfl ('\x7b' :: (m ++ ['\x7d']))
              bs.flatten hnotmem]
        rw [if_neg hne, ih hbs]
        simp [decChars]

/-- The out-state scan skips `%`-free text. -/
theorem scanVars_out_skip (r : List Char) :
    ∀ l : List Char, noPct l = true →
      scanVarsAux .out (l ++ r) = scanVarsAux .out r := by
  intro l
  induction l with
  | nil => intro _; rfl
  | cons c cl ih =>
    intro hl
    rw [noPct, List.all_cons, Bool.and_eq_true] at hl
    obtain ⟨hc0, hcl⟩ := hl
    have hc : c ≠ '%' := by simpa using hc0
    show (if c = '%' then scanVarsAux .sawPct (cl ++ r) else scanVarsAux .out (cl ++ r))
        = scanVarsAux .out r
    rw [if_neg hc]
    exact ih hcl

/-- The inside-state scan collects a brace-free run and emits the decorated
match at the first closing brace. -/
theorem scanVars_inside_collect (r : List Char) :
    ∀ (n : List Char), '\x7d' ∉ n → ∀ (buf : List Char),
      scanVarsAux (.inside buf) (n ++ '\x7d' :: r)
        = ('%' :: '\x7b' :: ((buf ++ n) ++ ['\x7d'])) :: scanVarsAux .out r := by
  intro n
  induction n with
  | nil =>
    intro _ buf
    show (if ('\x7d' : Char) = '\x7d' then
            ('%' :: '\x7b' :: (buf ++ ['\x7d'])) :: scanVarsAux .out r
          else scanVarsAux (.inside (buf ++ ['\x7d'])) r)
        = ('%' :: '\x7b' :: ((buf ++ []) ++ ['\x7d'])) :: scanVarsAux .out r
    rw [if_pos rfl]
    simp
  | cons a an ih =>
    intro hn buf
    have ha : a ≠ '\x7d' := fun h => hn (by rw [← h]; exact List.mem_cons_self a an)
    show (if a = '\x7d' then
            ('%' :: '\x7b' :: (buf ++ ['\x7d'])) :: scanVarsAux .out (an ++ '\x7d' :: r)
          else scanVarsAux (.inside (buf ++ [a])) (an ++ '\x7d' :: r))
        = ('%' :: '\x7b' :: ((buf ++ (a :: an)) ++ ['\x7d'])) :: scanVarsAux .out r
    rw [if_neg ha]
    rw [ih (fun h => hn (List.mem_cons_of_mem a h)) (buf ++ [a])]
    simp

/-- The scan recognizes a decorated block at the head. -/
theorem scanVars_out_dec (m r : List Char) (hm : '\x7d' ∉ m) :
    scanVarsAux .out (decChars m ++ r) = decChars m :: scanVarsAux .out r := by
  have h1 : decChars m ++ r = '%' :: '\x7b' :: (m ++ '\x7d' :: r) := by
    simp [decChars]
  rw [h1]
  show (if ('%' : Char) = '%' then scanVarsAux .sawPct ('\x7b' :: (m ++ '\x7d' :: r))
        else scanVarsAux .out ('\x7b' :: (m ++ '\x7d' :: r)))
      = decChars m :: scanVarsAux .out r
  rw [if_pos rfl]
  show (if ('\x7b' : Char) = '\x7b' then scanVarsAux (.inside []) (m ++ '\x7d' :: r)
        else if ('\x7b' : Char) = '%' then scanVarsAux .sawPct (m ++ '\x7d' :: r)
        else scanVarsAux .out (m ++ '\x7d' :: r))
      = decChars m :: scanVarsAux .out r
  rw [if_pos rfl]
  rw [scanVars_inside_collect r m hm []]
  simp [decChars]

/-- What the regex scan finds in a rendered token: exactly the decorated
names of its placeholder segments, in order. -/
theorem scanVars_segs :
    ∀ segs : List TokenSeg, segs.all goodSeg = true →
      scanVarsAux .out (segs.map (fun s => (TokenSeg.render s).data)).flatten
        = segs.filterMap (fun s => match s with
            | TokenSeg.lit _ => none
            | TokenSeg.var nm => some (decChars nm.data)) := by
  intro segs
  induction segs with
  | nil => intro _; rfl
  | cons s ss ih =>
    intro hall
    rw [List.all_cons, Bool.and_eq_true] at hall
    obtain ⟨hs1, hs2⟩ := hall
    rw [List.map_cons, List.flatten_cons]
    cases s with
    | lit ls =>
      rw [show (TokenSeg.render (TokenSeg.lit ls)).data = ls.data from rfl]
      rw [scanVars_out_skip _ ls.data hs1]
      rw [ih hs2]
      simp [List.filterMap_cons]
    | var nm =>
      have hdata : (TokenSeg.render (TokenSeg.var nm)).data = decChars nm.data := rfl
      rw [hdata, scanVars_out_dec nm.data _ (identCharsL_not_brace _ hs1)]
      rw [ih hs2]
      simp [List.filterMap_cons]

/-- Computing a name back out of a decorated match (the two `replace` calls
of `_extract_var_names`). -/
theorem match_name_extract (nm : List Char) (hm : identCharsL nm = true) :
    pyReplace (pyReplace (decChars nm) ['%', '\x7b'] []) ['\x7d'] [] = nm := by
  have hmem : '%' ∉ nm ++ ['\x7d'] := by
    intro h
    rcases List.mem_append.mp h with h1 | h2
    · exact identCharsL_not_pct nm hm h1
    · simp at h2
  have h1 : pyReplace (decChars nm) ['%', '\x7b'] [] = nm ++ ['\x7d'] := by
    have hsplit : decChars nm = (['%', '\x7b'] : List Char) ++ (nm ++ ['\x7d']) := by
      simp [decChars]
    rw [hsplit, pyReplace_match (['%', '\x7b'] : List Char) [] (nm ++ ['\x7d']) (by simp)]
    have h2 := pyReplace_append_skip (['%', '\x7b'] : List Char) [] '%' rfl
      (nm ++ ['\x7d']) [] hmem
    simpa using h2
  rw [h1]
  rw [pyReplace_append_skip (['\x7d'] : List Char) [] '\x7d' rfl nm ['\x7d']
        (identCharsL_not_brace nm hm)]
  have h4 : pyReplace (['\x7d'] : List Char) (['\x7d'] : List Char) [] = [] := by
    have h5 := pyReplace_match (['\x7d'] : List Char) [] [] (by simp)
    simpa using h5
  rw [h4]
  simp

/-- Mapping the name computation over the decorated matches gives back the
names. -/
theorem map_name_filterMap :
    ∀ (segs : List TokenSeg), segs.all goodSeg = true →
      (segs.filterMap (fun s => match s with
          | TokenSeg.lit _ => none
          | TokenSeg.var nm => some (decChars nm.data))).map
        (fun m => String.mk (pyReplace (pyReplace m ['%', '\x7b'] []) ['\x7d'] []))
      = segs.filterMap (fun s => match s with
          | TokenSeg.lit _ => none
          | TokenSeg.var nm => some nm) := by
  intro segs
  induction segs with
  | nil => intro _; rfl
  | cons s ss ih =>
    intro hall
    rw [List.all_cons, Bool.and_eq_true] at hall
    obtain ⟨hs1, hs2⟩ := hall
    cases s with
    | lit ls =>
      simpa using ih hs2
    | var nm =>
      simp only [List.filterMap_cons, List.map_cons]
      rw [match_name_extract nm.data hs1]
      rw [ih hs2]

/-- `extract_var_names` on a rendered token yields exactly its placeholder
names, in order. -/
theorem extract_names_segs (segs : List TokenSeg) (hgood : segs.all goodSeg = true) :
    extract_var_names (renderToken segs)
      = segs.filterMap (fun s => match s with
          | TokenSeg.lit _ => none
          | TokenSeg.var nm => some nm) := by
  unfold extract_var_names
  have hdata : (renderToken segs).data
      = (segs.map (fun s => (TokenSeg.render s).data)).flatten := by
    show (writeLines (segs.map TokenSeg.render)).data = _
    rw [writeLines_data, List.map_map]
    rfl
  rw [hdata, scanVars_segs segs hgood, map_name_filterMap segs hgood]

/-- A successful association lookup locates a stored pair. -/
theorem lookup_mem_pair (k v : String) :
    ∀ l : List (String × String), l.lookup k = some v → (k, v) ∈ l := by
  intro l
  induction l with
  | nil => intro h; exact absurd h (by simp)
  | cons p ps ih =>
    intro h
    obtain ⟨pk, pv⟩ := p
    by_cases hk : k = pk
    · subst hk
      rw [List.lookup_cons_self] at h
      obtain rfl := Option.some.inj h
      exact List.mem_cons_self _ _
    · have hbeq : (k == pk) = false := beq_eq_false_iff_ne.mpr hk
      have h2 : ((pk, pv) :: ps).lookup k = ps.lookup k := by
        show (match k == pk with
              | true => some pv
              | false => ps.lookup k) = ps.lookup k
        rw [hbeq]
      rw [h2] at h
      exact List.mem_cons_of_mem _ (ih h)

/-- Values looked up in a good variables map are `%`-free. -/
theorem goodVars_lookup (env_variables : List (String × String))
    (hvars : goodVars env_variables = true)
    (k v : String) (h : env_variables.lookup k = some v) : noPct v.data = true :=
  List.all_eq_true.mp hvars (k, v) (lookup_mem_pair k v env_variables h)

/-- `blockOfSeg` of a placeholder, spelled out. -/
theorem blockOfSeg_var (env_variables : List (String × String)) (done : List String)
    (nm : String) :
    blockOfSeg env_variables done (TokenSeg.var nm)
      = if (env_variables.lookup nm).isSome ∧ nm ∈ done
        then ((env_variables.lookup nm).getD "").data
        else decChars nm.data := rfl

/-- One unfolding step of `_replace_vars` for a bound name. -/
theorem replace_vars_cons_some (line : String) (e v : String) (rest : List String)
    (env_variables : List (String × String)) (h : env_variables.lookup e = some v) :
    replace_vars line (e :: rest) env_variables
      = replace_vars (pyStrReplace line (decorate_var e) v) rest env_variables := by
  show (match env_variables.lookup e with
        | some value =>
          replace_vars (pyStrReplace line (decorate_var e) value) rest env_variables
        | none => replace_vars line rest env_variables)
      = replace_vars (pyStrReplace line (decorate_var e) v) rest env_variables
  rw [h]

/-- One unfolding step of `_replace_vars` for an unbound name. -/
theorem replace_vars_cons_none (line : String) (e : String) (rest : List String)
    (env_variables : List (String × String)) (h : env_variables.lookup e = none) :
    replace_vars line (e :: rest) env_variables = replace_vars line rest env_variables := by
  show (match env_variables.lookup e with
        | some value =>
          replace_vars (pyStrReplace line (decorate_var e) value) rest env_variables
        | none => replace_vars line rest env_variables)
      = replace_vars line rest env_variables
  rw [h]

/-- Marking an unbound name as done changes no block. -/
theorem blockOfSeg_skip (env_variables : List (String × String)) (done : List String)
    (e : String) (hl : env_variables.lookup e = none) (s : TokenSeg) :
    blockOfSeg env_variables done s = blockOfSeg env_variables (done ++ [e]) s := by
  cases s with
  | lit ls => rfl
  | var nm =>
    rw [blockOfSeg_var, blockOfSeg_var]
    by_cases hmem : (env_variables.lookup nm).isSome ∧ nm ∈ done
    · rw [if_pos hmem, if_pos ⟨hmem.1, List.mem_append_left _ hmem.2⟩]
    · rw [if_neg hmem, if_neg (by
        rintro ⟨h1, h2⟩
        rcases List.mem_append.mp h2 with h3 | h4
        · exact hmem ⟨h1, h3⟩
        · have he2 : nm = e := by simpa using h4
          rw [he2, hl] at h1
          simp at h1)]

/-- One replacement pass updates exactly the blocks of the processed name. -/
theorem blockOfSeg_step (env_variables : List (String × String)) (done : List String)
    (e v : String) (hl : env_variables.lookup e = some v)
    (hvars : goodVars env_variables = true) (s : TokenSeg) (hgs : goodSeg s = true) :
    (if blockOfSeg env_variables done s = decChars e.data then v.data
     else blockOfSeg env_variables done s)
      = blockOfSeg env_variables (done ++ [e]) s := by
  cases s with
  | lit ls =>
    have hgs2 : noPct ls.data = true := hgs
    rw [show blockOfSeg env_variables done (TokenSeg.lit ls) = ls.data from rfl,
        show blockOfSeg env_variables (done ++ [e]) (TokenSeg.lit ls) = ls.data from rfl,
        if_neg (noPct_ne_decChars ls.data hgs2 e.data)]
  | var nm =>
    have hgs2 : identCharsL nm.data = true := hgs
    rw [blockOfSeg_var, blockOfSeg_var]
    by_cases hdone : (env_variables.lookup nm).isSome ∧ nm ∈ done
    · obtain ⟨w, hw⟩ := Option.isSome_iff_exists.mp hdone.1
      have hc2 : (env_variables.lookup nm).isSome ∧ nm ∈ done ++ [e] :=
        ⟨hdone.1, List.mem_append_left _ hdone.2⟩
      rw [if_pos hdone, if_pos hc2]
      have hwP : noPct ((env_variables.lookup nm).getD "").data = true := by
        rw [hw]
        exact goodVars_lookup env_variables hvars nm w hw
      rw [if_neg (noPct_ne_decChars _ hwP e.data)]
    · rw [if_neg hdone]
      by_cases hnmE : nm = e
      · subst hnmE
        have hq : decChars nm.data = decChars nm.data := rfl
        have hc3 : (env_variables.lookup nm).isSome ∧ nm ∈ done ++ [nm] :=
          ⟨by rw [hl]; rfl, List.mem_append_right _ (List.mem_cons_self _ _)⟩
        rw [if_pos hq, if_pos hc3, hl]
        rfl
      · have hne2 : decChars nm.data ≠ decChars e.data :=
          fun hEq => hnmE (String.ext (decChars_inj _ _ hEq))
        have hc4 : ¬((env_variables.lookup nm).isSome ∧ nm ∈ done ++ [e]) := by
          rintro ⟨h1, h2⟩
          rcases List.mem_append.mp h2 with h3 | h4
          · exact hdone ⟨h1, h3⟩
          · exact hnmE (by simpa using h4)
        rw [if_neg hne2, if_neg hc4]

/-- The `_replace_vars` loop invariant: processing the pending names turns
each bound placeholder among them into its value, leaving everything else in
place. -/
theorem replace_vars_invariant (env_variables : List (String × String))
    (segs : List TokenSeg)
    (hgood : segs.all goodSeg = true) (hvars : goodVars env_variables = true) :
    ∀ (todo : List String), (∀ nm ∈ todo, identCharsL nm.data = true) →
      ∀ (done : List String),
      replace_vars (String.mk ((segs.map (blockOfSeg env_variables done)).flatten))
          todo env_variables
        = String.mk ((segs.map (blockOfSeg env_variables (done ++ todo))).flatten) := by
  intro todo
  induction todo with
  | nil =>
    intro _ done
    show String.mk ((segs.map (blockOfSeg env_variables done)).flatten)
        = String.mk ((segs.map (blockOfSeg env_variables (done ++ []))).flatten)
    rw [List.append_nil]
  | cons e todoTail ih =>
    intro htodo done
    have he : identCharsL e.data = true := htodo e (List.mem_cons_self e todoTail)
    have htail : ∀ nm ∈ todoTail, identCharsL nm.data = true :=
      fun nm h => htodo nm (List.mem_cons_of_mem e h)
    have happ : (done ++ [e]) ++ todoTail = done ++ e :: todoTail := by
      rw [List.append_assoc]
      rfl
    cases hl : env_variables.lookup e with
    | none =>
      rw [replace_vars_cons_none _ _ _ _ hl]
      rw [List.map_congr_left
            (fun s _ => blockOfSeg_skip env_variables done e hl s)]
      rw [ih htail (done ++ [e]), happ]
    | some v =>
      rw [replace_vars_cons_some _ _ _ _ _ hl]
      have hblocks : ∀ b ∈ segs.map (blockOfSeg env_variables done),
          noPct b = true ∨ ∃ m, b = decChars m ∧ identCharsL m = true := by
        intro b hbmem
        rcases List.mem_map.mp hbmem with ⟨s, hs, rfl⟩
        have hgs : goodSeg s = true := List.all_eq_true.mp hgood s hs
        cases s with
        | lit ls => exact Or.inl hgs
        | var nm =>
          rw [blockOfSeg_var]
          by_cases hdone : (env_variables.lookup nm).isSome ∧ nm ∈ done
          · obtain ⟨w, hw⟩ := Option.isSome_iff_exists.mp hdone.1
            rw [if_pos hdone]
            refine Or.inl ?_
            rw [hw]
            exact goodVars_lookup env_variables hvars nm w hw
          · rw [if_neg hdone]
            exact Or.inr ⟨nm.data, rfl, hgs⟩
      have hnewline : pyStrReplace
            (String.mk ((segs.map (blockOfSeg env_variables done)).flatten))
            (decorate_var e) v
          = String.mk ((segs.map (blockOfSeg env_variables (done ++ [e]))).flatten) := by
        apply String.ext
        show pyReplace ((segs.map (blockOfSeg env_variables done)).flatten)
            (decorate_var e).data v.data = _
        rw [show (decorate_var e).data = decChars e.data from rfl]
        rw [pyReplace_blocks e.data v.data he (segs.map (blockOfSeg env_variables done)) hblocks]
        rw [List.map_map]
        show ((segs.map (fun s => if blockOfSeg env_variables done s = decChars e.data
              then v.data else blockOfSeg env_variables done s)).flatten) = _
        rw [List.map_congr_left
              (fun s hs => blockOfSeg_step env_variables done e v hl hvars s
                (List.all_eq_true.mp hgood s hs))]
      rw [hnewline, ih htail (done ++ [e]), happ]

/-- Variable substitution on a rendered token resolves each segment:
literals unchanged, bound placeholders replaced by their values, unbound
placeholders left verbatim — provided the variable values are `%`-free. -/
theorem substitute_item_segs (env_variables : List (String × String))
    (segs : List TokenSeg) (hgood : segs.all goodSeg = true)
    (hvars : goodVars env_variables = true) :
    substitute_item env_variables (renderToken segs)
      = String.join (segs.map (TokenSeg.resolve env_variables)) := by
  unfold substitute_item
  rw [extract_names_segs segs hgood]
  have hstart : renderToken segs
      = String.mk ((segs.map (blockOfSeg env_variables [])).flatten) := by
    apply String.ext
    have h1 : (renderToken segs).data
        = (segs.map (fun s => (TokenSeg.render s).data)).flatten := by
      show (writeLines (segs.map TokenSeg.render)).data = _
      rw [writeLines_data, List.map_map]
      rfl
    rw [h1]
    show _ = (segs.map (blockOfSeg env_variables [])).flatten
    congr 1
    apply List.map_congr_left
    intro s _
    cases s with
    | lit ls => rfl
    | var nm =>
      rw [blockOfSeg_var]
      have hc : ¬((env_variables.lookup nm).isSome ∧ nm ∈ ([] : List String)) := by
        rintro ⟨_, h2⟩
        exact List.not_mem_nil nm h2
      rw [if_neg hc]
      rfl
  rw [hstart]
  have hnames : ∀ nm ∈ segs.filterMap (fun s => match s with
      | TokenSeg.lit _ => none
      | TokenSeg.var nm2 => some nm2), identCharsL nm.data = true := by
    intro nm hmem
    rcases List.mem_filterMap.mp hmem with ⟨s, hs, hfs⟩
    cases s with
    | lit ls => exact Option.noConfusion hfs
    | var nm2 =>
      have he2 : nm2 = nm := by simpa using hfs
      subst he2
      exact List.all_eq_true.mp hgood _ hs
  rw [replace_vars_invariant env_variables segs hgood hvars _ hnames []]
  rw [List.nil_append]
  apply String.ext
  have h2 : (String.join (segs.map (TokenSeg.resolve env_variables))).data
      = (segs.map (fun s => (TokenSeg.resolve env_variables s).data)).flatten := by
    show (writeLines (segs.map (TokenSeg.resolve env_variables))).data = _
    rw [writeLines_data, List.map_map]
    rfl
  rw [h2]
  show (segs.map (blockOfSeg env_variables
        (segs.filterMap (fun s => match s with
           | TokenSeg.lit _ => none
           | TokenSeg.var nm2 => some nm2)))).flatten = _
  congr 1
  apply List.map_congr_left
  intro s hs
  cases s with
  | lit ls => rfl
  | var nm =>
    have hin : nm ∈ segs.filterMap (fun s => match s with
        | TokenSeg.lit _ => none
        | TokenSeg.var nm2 => some nm2) :=
      List.mem_filterMap.mpr ⟨TokenSeg.var nm, hs, rfl⟩
    rw [blockOfSeg_var]
    cases hnm : env_variables.lookup nm with
    | none =>
      have hc : ¬((none : Option String).isSome
          ∧ nm ∈ segs.filterMap (fun s => match s with
              | TokenSeg.lit _ => none
              | TokenSeg.var nm2 => some nm2)) := by
        rintro ⟨h1, _⟩
        simp at h1
      rw [if_neg hc]
      show decChars nm.data = (match env_variables.lookup nm with
        | some v => v
        | none => decorate_var nm).data
      rw [hnm]
      rfl
    | some v =>
      have hc : (some v).isSome
          ∧ nm ∈ segs.filterMap (fun s => match s with
              | TokenSeg.lit _ => none
              | TokenSeg.var nm2 => some nm2) := ⟨rfl, hin⟩
      rw [if_pos hc]
      show ((some v).getD "").data = (match env_variables.lookup nm with
        | some w => w
        | none => decorate_var nm).data
      rw [hnm]
      rfl

/-- C7 (counterexample): with variables a = "%\x7bb\x7d" and b = "X", the
token made of the two placeholders for a and b substitutes to "XX" — the
value inserted for a is RE-SCANNED by the later pass for b — whereas the
claim ("each placeholder replaced by the corresponding variable value")
predicts "%\x7bb\x7dX". -/
theorem substitution_rescans_values_cex :
    renderToken [TokenSeg.var "a", TokenSeg.var "b"] = "%\x7ba\x7d%\x7bb\x7d" ∧
    substitute_item [("a", "%\x7bb\x7d"), ("b", "X")] "%\x7ba\x7d%\x7bb\x7d" = "XX" ∧
    String.join ([TokenSeg.var "a", TokenSeg.var "b"].map
        (TokenSeg.resolve [("a", "%\x7bb\x7d"), ("b", "X")])) = "%\x7bb\x7dX" ∧
    ("XX" : String) ≠ "%\x7bb\x7dX" := by
  refine ⟨by decide, by decide, by decide, by decide⟩

/-- C7 (amended): variable substitution is the identity on every token in
which the placeholder regex finds no match; and on a token that is a
concatenation of `%`-free literal pieces and placeholders with bracket-free
names, substitution replaces each placeholder whose name is bound by its
value and leaves unbound placeholders verbatim — provided no variable value
contains a `%` character (substitution rescans previously substituted text,
so values containing placeholder syntax are re-substituted by later
passes). -/
theorem substitution_resolves_tokens_amended :
    (∀ (env_variables : List (String × String)) (tok : String),
      scanVarsAux ScanState.out tok.data = [] →
      substitute_item env_variables tok = tok) ∧
    (∀ (env_variables : List (String × String)) (segs : List TokenSeg),
      goodVars env_variables = true → segs.all goodSeg = true →
      substitute_item env_variables (renderToken segs)
        = String.join (segs.map (TokenSeg.resolve env_variables))) := by
  constructor
  · intro env_variables tok h
    unfold substitute_item extract_var_names
    rw [h]
    rfl
  · intro env_variables segs hvars hgood
    exact substitute_item_segs env_variables segs hgood hvars

/-- Witness for `substitution_resolves_tokens_amended`: a no-placeholder
token is untouched, and the single placeholder token for the known variable
X resolves to its value. -/
theorem substitution_resolves_tokens_amended_witness :
    substitute_item [("X", "5")] "abc" = "abc" ∧
    substitute_item [("X", "5")] (renderToken [TokenSeg.var "X"])
      = String.join ([TokenSeg.var "X"].map (TokenSeg.resolve [("X", "5")])) :=
  ⟨substitution_resolves_tokens_amended.1 [("X", "5")] "abc" (by decide),
   substitution_resolves_tokens_amended.2 [("X", "5")] [TokenSeg.var "X"]
     (by decide) (by decide)⟩
